import Mathlib

/-!
Verification of the CDK bootstrap orchestration state machine
(`src/core/cdk/src/tasks/cdk-bootstrap.ts`).

The file has two layers:

* A shallow embedding of the *static* Step Functions structure that the
  `CDKBootstrapTask` constructor builds: the four chained states, the two
  `sfn.Map` fan-outs with their `itemsPath` / `resultPath` / `maxConcurrency`
  / `parameters` attributes, and the two synchronous `StartExecution` tasks
  with their input templates.  These definitions are transcribed from the
  TypeScript source.

* An operational semantics for executing that structure.  The executor
  itself (AWS Step Functions) is not part of the repository, so the
  semantics of Map fan-outs with a concurrency cap, synchronous sub-workflow
  execution, and `resultPath` merging is modelled from the spec: a
  small-step scheduler for bounded fan-outs, a nested scheduler for the
  account/region double map, and a small-step machine for the whole
  four-phase chain acting on a JSON-like document.
-/

/-! ## JSON-path template values (the `parameters` / `input` objects) -/

/-- A value in a Step Functions payload template: a JSON-path reference
(`'x.$': '$...'`), a literal string, a literal list of strings, or a nested
template object. -/
inductive TValue where
  | path (p : String)
  | lit (s : String)
  | litList (ss : List String)
  | node (fields : List (String × TValue))

/-- Association lookup in a payload template object. -/
def lookupT : List (String × TValue) → String → Option TValue
  | [], _ => none
  | (k', v) :: rest, k => if k' = k then some v else lookupT rest k

/-- A state's `resultPath`: either a JSON path into the document or
`DISCARD`. -/
inductive ResultPath where
  | atPath (p : String)
  | discard
deriving DecidableEq

/-! ## The static workflow structure built by the constructor -/

namespace CDKBootstrapTask

/-- `CDKBootstrapTask.Props` from the source.  `role` and `lambdaCode` are
opaque handles to cloud constructs; they do not influence the workflow
shape. -/
structure Props where
  role : String
  lambdaCode : String
  acceleratorPrefix : String
  s3BucketName : String
  operationsBootstrapObjectKey : String
  accountBootstrapObjectKey : String
  assumeRoleName : String
  bootStrapStackName : String
  functionPayload : Option (List (String × String)) := none
  waitSeconds : Option Nat := none

/-- Line 40 of the source destructures `waitSeconds = 10`: the effective
value of the optional `waitSeconds` prop.  It is never read afterwards. -/
def effectiveWaitSeconds (p : Props) : Nat :=
  p.waitSeconds.getD 10

end CDKBootstrapTask

/-- A `CodeTask` (Lambda-backed task state): name, `resultPath`, payload
template and handler.  `catchRules` records `addCatch` handlers; the source
never installs any. -/
structure CodeTaskDef where
  name : String
  resultPath : ResultPath
  functionPayload : List (String × TValue)
  handler : String
  catchRules : List String

/-- How a `StartExecution` task integrates with the child execution. -/
inductive IntegrationPattern where
  | sync
  | fireAndForget
deriving DecidableEq

/-- An `sfn.Task` wrapping `tasks.StartExecution` of a nested state machine:
the child state machine's name, the integration pattern, the input template,
and the task's `resultPath`.  `createStackSuffix` records the `suffix`
passed to the child `CreateStackTask` definition. -/
structure SyncExecTask where
  name : String
  stateMachineName : String
  integrationPattern : IntegrationPattern
  input : List (String × TValue)
  resultPath : ResultPath
  createStackSuffix : Option String
  catchRules : List String

/-- The attributes of an `sfn.Map` state. -/
structure MapAttrs where
  name : String
  itemsPath : String
  resultPath : ResultPath
  maxConcurrency : Nat
  parameters : List (String × TValue)
  catchRules : List String

/-- The iterator of a Map state: either a single `StartExecution` task or a
nested Map. -/
inductive MapBody where
  | exec (t : SyncExecTask)
  | mapB (attrs : MapAttrs) (body : MapBody)

/-- A top-level state of the chain. -/
inductive Phase where
  | code (t : CodeTaskDef)
  | mapP (attrs : MapAttrs) (body : MapBody)

/-- The name of a top-level state. -/
def Phase.name : Phase → String
  | .code t => t.name
  | .mapP a _ => a.name

/-- The `addCatch` handlers of a top-level state. -/
def Phase.catchRules : Phase → List String
  | .code t => t.catchRules
  | .mapP a _ => a.catchRules

/-- The workflow fragment: the linear chain `Chain.start(...).next(...)`
(lines 188-191) as a list of states, plus the IAM policy actions the
constructor adds to the role (lines 43-49). -/
structure Workflow where
  chain : List Phase
  logsPolicyActions : List String

namespace CDKBootstrapTask

/-- The `Get Operations Account Info` CodeTask (lines 51-65). -/
def getAccountInfoTask : CodeTaskDef where
  name := "Get Operations Account Info"
  resultPath := .atPath "$.operationsAccount"
  functionPayload :=
    [ ("configRepositoryName.$", .path "$.configRepositoryName")
    , ("configFilePath.$", .path "$.configFilePath")
    , ("configCommitId.$", .path "$.configCommitId")
    , ("accountsTableName.$", .path "$.accountsTableName")
    , ("accountType", .lit "central-operations") ]
  handler := "index.getAccountInfo"
  catchRules := []

/-- The `Bootstrap Operations Account` Map attributes (lines 67-78). -/
def createRootBootstrapInRegion (p : Props) : MapAttrs where
  name := "Bootstrap Operations Account"
  itemsPath := "$.regions"
  resultPath := .atPath "$.bootstrap"
  maxConcurrency := 20
  parameters :=
    [ ("accountId.$", .path "$.operationsAccount.id")
    , ("organizationId.$", .path "$.operationsAccount.ou")
    , ("region.$", .path "$$.Map.Item.Value")
    , ("acceleratorPrefix", .lit p.acceleratorPrefix)
    , ("assumeRoleName", .lit p.assumeRoleName) ]
  catchRules := []

/-- The `Bootstrap Operations Acccount` synchronous StartExecution task
(lines 80-112): runs the `BootstrapOperationsAccount_sm` state machine
(a `CreateStackTask`) with the hub-stack input. -/
def bootstrapOpsTask (p : Props) : SyncExecTask where
  name := "Bootstrap Operations Acccount"
  stateMachineName := p.acceleratorPrefix ++ "BootstrapOperationsAccount_sm"
  integrationPattern := .sync
  input :=
    [ ("stackName", .lit p.bootStrapStackName)
    , ("stackCapabilities", .litList ["CAPABILITY_NAMED_IAM"])
    , ("stackParameters", .node [("OrganizationId.$", .path "$.organizationId")])
    , ("stackTemplate", .node
        [ ("s3BucketName", .lit p.s3BucketName)
        , ("s3ObjectKey", .lit p.operationsBootstrapObjectKey) ])
    , ("accountId.$", .path "$.accountId")
    , ("assumeRoleName", .lit p.assumeRoleName)
    , ("region.$", .path "$.region") ]
  resultPath := .atPath "$.opsBootstrapOutput"
  createStackSuffix := none
  catchRules := []

/-- The `Get Bootstrap output` CodeTask (lines 115-128).  `currentAccountId`
is the CDK pseudo-parameter `cdk.Aws.ACCOUNT_ID`, modelled as a literal
marker. -/
def getBootstrapOutput : CodeTaskDef where
  name := "Get Bootstrap output"
  resultPath := .atPath "$.bootstrap"
  functionPayload :=
    [ ("stackOutputs.$", .path "$.bootstrap")
    , ("accounts.$", .path "$.accounts")
    , ("operationsAccountId.$", .path "$.operationsAccount.id")
    , ("currentAccountId", .lit "AWS::AccountId") ]
  handler := "index.getBootstrapOutput"
  catchRules := []

/-- The `Bootstrap Account Map` Map attributes (lines 130-140). -/
def createBootstrapInAccount (p : Props) : MapAttrs where
  name := "Bootstrap Account Map"
  itemsPath := "$.bootstrap.accounts"
  resultPath := .discard
  maxConcurrency := 10
  parameters :=
    [ ("accountId.$", .path "$$.Map.Item.Value")
    , ("bootstrapRegions.$", .path "$.bootstrap.outputs")
    , ("acceleratorPrefix", .lit p.acceleratorPrefix)
    , ("assumeRoleName", .lit p.assumeRoleName) ]
  catchRules := []

/-- The `Bootstrap Account Region Map` Map attributes (lines 142-152). -/
def createBootstrapInRegion (p : Props) : MapAttrs where
  name := "Bootstrap Account Region Map"
  itemsPath := "$.bootstrapRegions"
  resultPath := .discard
  maxConcurrency := 16
  parameters :=
    [ ("accountId.$", .path "$.accountId")
    , ("bootstrapRegion.$", .path "$$.Map.Item.Value")
    , ("acceleratorPrefix", .lit p.acceleratorPrefix)
    , ("assumeRoleName", .lit p.assumeRoleName) ]
  catchRules := []

/-- The `Bootstrap Acccount` synchronous StartExecution task (lines
154-184): runs the `BootstrapAccount_sm` state machine (a `CreateStackTask`
with suffix `Account Stack`) with the account-stack input. -/
def bootstrapTask (p : Props) : SyncExecTask where
  name := "Bootstrap Acccount"
  stateMachineName := p.acceleratorPrefix ++ "BootstrapAccount_sm"
  integrationPattern := .sync
  input :=
    [ ("stackName", .lit p.bootStrapStackName)
    , ("stackCapabilities", .litList ["CAPABILITY_NAMED_IAM"])
    , ("stackParameters", .node
        [ ("BucketName.$", .path "$.bootstrapRegion.bucketDomain")
        , ("BucketDomainName.$", .path "$.bootstrapRegion.bucketDomain") ])
    , ("stackTemplate", .node
        [ ("s3BucketName", .lit p.s3BucketName)
        , ("s3ObjectKey", .lit p.accountBootstrapObjectKey) ])
    , ("accountId.$", .path "$.accountId")
    , ("assumeRoleName", .lit p.assumeRoleName)
    , ("region.$", .path "$.bootstrapRegion.region") ]
  resultPath := .discard
  createStackSuffix := some "Account Stack"
  catchRules := []

/-- The full workflow the constructor assembles: the chain of lines 188-191,
`getAccountInfoTask → createRootBootstrapInRegion → getBootstrapOutput →
createBootstrapInAccount`, with the Map iterators wired by lines 113, 185
and 186. -/
def cdkBootstrapTask (p : Props) : Workflow where
  chain :=
    [ .code getAccountInfoTask
    , .mapP (createRootBootstrapInRegion p) (.exec (bootstrapOpsTask p))
    , .code getBootstrapOutput
    , .mapP (createBootstrapInAccount p)
        (.mapB (createBootstrapInRegion p) (.exec (bootstrapTask p))) ]
  logsPolicyActions := ["logs:CreateLogGroup", "logs:CreateLogStream", "logs:PutLogEvents"]

/-- All `addCatch` handlers installed anywhere in the chain. -/
def allCatchRules (w : Workflow) : List String :=
  (w.chain.map Phase.catchRules).flatten

end CDKBootstrapTask

open CDKBootstrapTask

/-! ## Bounded fan-out scheduler

Modelled from the spec: the Map executor itself (AWS Step Functions) is not
part of the repository.  A fan-out over `n` items with concurrency cap
`cap` is a small-step scheduler: an item may start only while fewer than
`cap` items are running, items complete in any order, and when
`aggregate=true` each item's result is written into the slot at the item's
original index. -/

/-- The state of one bounded fan-out over items `0 .. n-1` producing
results in `α`: items not yet admitted (in original order), items in
flight, items finished (in completion order), the number of invocations
issued so far, and the result slots. -/
structure FanState (α : Type) where
  pending : List Nat
  running : List Nat
  done : List Nat
  issued : Nat
  slots : List (Option α)
deriving DecidableEq, Repr

/-- The fan-out state before any item has been admitted. -/
def FanState.init (α : Type) (n : Nat) : FanState α :=
  ⟨List.range n, [], [], 0, List.replicate n none⟩

/-- The fan-out has drained: no pending and no in-flight item. -/
def FanState.terminal (s : FanState α) : Prop :=
  s.pending = [] ∧ s.running = []

instance (s : FanState α) : Decidable s.terminal := by
  unfold FanState.terminal; infer_instance

/-- A scheduler event: admit the next pending item, or complete in-flight
item `i`. -/
inductive FanStep where
  | start
  | finish (i : Nat)
deriving DecidableEq, Repr

/-- One scheduler step of a fan-out with cap `cap` and per-item result
function `v`.  `start` is enabled only below the cap; `finish i` only for a
running `i`, and it stores `v i` in slot `i`. -/
def fanStep (cap : Nat) (v : Nat → α) (s : FanState α) : FanStep → Option (FanState α)
  | .start =>
    match s.pending with
    | [] => none
    | p :: ps =>
      if s.running.length < cap then
        some { s with pending := ps, running := s.running ++ [p], issued := s.issued + 1 }
      else none
  | .finish i =>
    if i ∈ s.running then
      some { s with running := s.running.erase i,
                    done := s.done ++ [i],
                    slots := s.slots.set i (some (v i)) }
    else none

/-- Run a list of scheduler events; fails if any event is not enabled. -/
def fanRun (cap : Nat) (v : Nat → α) : List FanStep → FanState α → Option (FanState α)
  | [], s => some s
  | e :: es, s =>
    match fanStep cap v s e with
    | none => none
    | some s' => fanRun cap v es s'

/-- The aggregated output of a fan-out: the result slots read off in the
original item order. -/
def FanState.aggregateOut (s : FanState α) : List (Option α) :=
  s.slots

/-! ### Invariants of the fan-out scheduler -/

/-- The well-formedness invariant tying a fan-out state to its item count:
the pending, running and done items together are a permutation of
`0 .. n-1`, the number of issued invocations counts the items no longer
pending, the slots list has length `n`, and slot `i` is filled exactly when
item `i` is done. -/
def FanInv (n : Nat) (v : Nat → α) (s : FanState α) : Prop :=
  (s.pending ++ s.running ++ s.done).Perm (List.range n)
  ∧ s.issued + s.pending.length = n
  ∧ s.slots.length = n
  ∧ ∀ i, i < n → s.slots.get? i = some (if i ∈ s.done then some (v i) else none)

theorem fanInv_init (n : Nat) (v : Nat → α) : FanInv n v (FanState.init α n) := by
  refine ⟨by simp [FanState.init], by simp [FanState.init], by simp [FanState.init], ?_⟩
  intro i hi
  simp [FanState.init, List.get?_eq_getElem?, List.getElem?_replicate, hi]

theorem fanStep_inv {cap : Nat} {v : Nat → α} {s s' : FanState α} {e : FanStep}
    (hinv : FanInv n v s) (h : fanStep cap v s e = some s') : FanInv n v s' := by
  obtain ⟨hperm, hcount, hlen, hslots⟩ := hinv
  cases e with
  | start =>
    cases hp : s.pending with
    | nil => simp [fanStep, hp] at h
    | cons p ps =>
      rw [hp] at hperm hcount
      simp only [fanStep, hp] at h
      split at h
      · cases h
        refine ⟨?_, ?_, by simpa using hlen, by simpa using hslots⟩
        · have e1 : ps ++ (s.running ++ [p]) ++ s.done
              = (ps ++ s.running) ++ p :: s.done := by simp
          have e2 : (p :: ps) ++ s.running ++ s.done
              = p :: ((ps ++ s.running) ++ s.done) := by simp
          rw [e2] at hperm
          simp only []
          rw [e1]
          exact List.perm_middle.trans hperm
        · simp only []
          simp only [List.length_cons] at hcount
          omega
      · cases h
  | finish i =>
    simp only [fanStep] at h
    split at h
    · next hmem =>
      cases h
      have hiLt : i < n := by
        have : i ∈ List.range n := hperm.mem_iff.mp (by simp [hmem])
        simpa using this
      have hNotDone : i ∉ s.done := by
        have hnd : ((s.pending ++ s.running) ++ s.done).Nodup :=
          hperm.nodup_iff.mpr (List.nodup_range n)
        have hdisj := List.disjoint_of_nodup_append hnd
        exact fun hd => hdisj (by simp [hmem]) hd
      have hrun : s.running.Perm (i :: s.running.erase i) := List.perm_cons_erase hmem
      have h3 : (s.pending ++ s.running ++ s.done).Perm
          (i :: (s.pending ++ s.running.erase i ++ s.done)) := by
        have a1 : (s.pending ++ s.running ++ s.done).Perm
            ((s.pending ++ (i :: s.running.erase i)) ++ s.done) :=
          List.Perm.append_right s.done (List.Perm.append_left s.pending hrun)
        have a2 : ((s.pending ++ (i :: s.running.erase i)) ++ s.done).Perm
            ((i :: (s.pending ++ s.running.erase i)) ++ s.done) :=
          List.Perm.append_right s.done List.perm_middle
        have a3 : (i :: (s.pending ++ s.running.erase i)) ++ s.done
            = i :: (s.pending ++ s.running.erase i ++ s.done) := by simp
        rw [a3] at a2
        exact a1.trans a2
      refine ⟨?_, ?_, ?_, ?_⟩
      · show (s.pending ++ s.running.erase i ++ (s.done ++ [i])).Perm (List.range n)
        refine List.Perm.trans ?_ hperm
        have b1 : (s.pending ++ s.running.erase i ++ (s.done ++ [i])).Perm
            (s.pending ++ s.running.erase i ++ (i :: s.done)) :=
          List.Perm.append_left _ (List.perm_append_singleton i s.done)
        have b2 : (s.pending ++ s.running.erase i ++ (i :: s.done)).Perm
            (i :: (s.pending ++ s.running.erase i ++ s.done)) := List.perm_middle
        exact (b1.trans b2).trans h3.symm
      · show s.issued + s.pending.length = n
        exact hcount
      · show (s.slots.set i (some (v i))).length = n
        simpa using hlen
      · intro j hj
        show (s.slots.set i (some (v i))).get? j
            = some (if j ∈ s.done ++ [i] then some (v j) else none)
        rw [List.get?_eq_getElem?]
        rcases eq_or_ne j i with rfl | hne
        · rw [List.getElem?_set_eq_of_lt _ (by rw [hlen]; exact hj)]
          simp
        · rw [List.getElem?_set_ne (fun hh => hne hh.symm)]
          have := hslots j hj
          rw [List.get?_eq_getElem?] at this
          rw [this]
          congr 1
          simp [List.mem_append, hne]
    · cases h

theorem fanRun_inv {cap : Nat} {v : Nat → α} {tr : List FanStep} {s s' : FanState α}
    (hinv : FanInv n v s) (h : fanRun cap v tr s = some s') : FanInv n v s' := by
  induction tr generalizing s with
  | nil => cases h; exact hinv
  | cons e es ih =>
    simp only [fanRun] at h
    cases he : fanStep cap v s e with
    | none => rw [he] at h; cases h
    | some s1 =>
      rw [he] at h
      exact ih (fanStep_inv hinv he) h

/-- The cap is respected by every step. -/
theorem fanStep_cap {cap : Nat} {v : Nat → α} {s s' : FanState α} {e : FanStep}
    (hcap : s.running.length ≤ cap) (h : fanStep cap v s e = some s') :
    s'.running.length ≤ cap := by
  cases e with
  | start =>
    cases hp : s.pending with
    | nil => simp [fanStep, hp] at h
    | cons p ps =>
      simp only [fanStep, hp] at h
      split at h
      · next hlt => cases h; simpa using hlt
      · cases h
  | finish i =>
    simp only [fanStep] at h
    split at h
    · cases h
      simp only []
      exact le_trans (List.length_erase_le _ _) hcap
    · cases h

theorem fanRun_cap {cap : Nat} {v : Nat → α} {tr : List FanStep} {s s' : FanState α}
    (hcap : s.running.length ≤ cap) (h : fanRun cap v tr s = some s') :
    s'.running.length ≤ cap := by
  induction tr generalizing s with
  | nil => cases h; exact hcap
  | cons e es ih =>
    simp only [fanRun] at h
    cases he : fanStep cap v s e with
    | none => rw [he] at h; cases h
    | some s1 =>
      rw [he] at h
      exact ih (fanStep_cap hcap he) h

/-- A drained fan-out has issued exactly `n` invocations, finished all `n`
items, and filled every slot with its item's result, in item order. -/
theorem fanInv_terminal {v : Nat → α} {s : FanState α}
    (hinv : FanInv n v s) (ht : s.terminal) :
    s.issued = n ∧ s.done.length = n ∧
      s.slots = (List.range n).map (fun i => some (v i)) := by
  obtain ⟨hperm, hcount, hlen, hslots⟩ := hinv
  obtain ⟨hp, hr⟩ := ht
  have hdone : s.done.Perm (List.range n) := by simpa [hp, hr] using hperm
  have hdlen : s.done.length = n := by simpa using hdone.length_eq
  refine ⟨by simpa [hp] using hcount, hdlen, ?_⟩
  have hmem : ∀ i, i < n → i ∈ s.done := by
    intro i hi
    exact hdone.mem_iff.mpr (by simpa using hi)
  apply List.ext_get?
  intro i
  rcases Nat.lt_or_ge i n with hi | hi
  · rw [hslots i hi]
    simp [hmem i hi, List.get?_eq_getElem?, hi]
  · rw [List.get?_eq_getElem?, List.get?_eq_getElem?]
    rw [List.getElem?_eq_none (by simpa [hlen] using hi),
      List.getElem?_eq_none (by simpa using hi)]

/-! ## Nested fan-out scheduler (accounts × regions)

Modelled from the spec: phase `BootstrapEachAccount` is a Map over
`bootstrap.accounts` (cap 10) whose iterator is the Map
`createBootstrapInRegion` over the account's `bootstrapRegions`
(= `bootstrap.outputs`, cap 16), whose iterator is one leaf `bootstrapTask`
deployment.  Each level has its own independent concurrency cap. -/

/-- Look up the inner fan-out of account `a` (first match). -/
def lookupAcct (a : Nat) : List (Nat × FanState Unit) → Option (FanState Unit)
  | [] => none
  | (b, st) :: rest => if b = a then some st else lookupAcct a rest

/-- Replace the inner fan-out of account `a` (first match). -/
def setAcct (a : Nat) (st' : FanState Unit) :
    List (Nat × FanState Unit) → List (Nat × FanState Unit)
  | [] => []
  | (b, st) :: rest => if b = a then (a, st') :: rest else (b, st) :: setAcct a st' rest

/-- Remove the entry of account `a` (first match). -/
def removeAcct (a : Nat) :
    List (Nat × FanState Unit) → List (Nat × FanState Unit)
  | [] => []
  | (b, st) :: rest => if b = a then rest else (b, st) :: removeAcct a rest

/-- The state of the nested account/region fan-out: accounts not yet
admitted, accounts in flight (each with its own inner region fan-out),
accounts finished, and counts of issued account items and issued leaf
deployments. -/
structure NestState where
  pending : List Nat
  running : List (Nat × FanState Unit)
  done : List Nat
  issuedAcct : Nat
  issuedLeaf : Nat
deriving DecidableEq, Repr

/-- The nested fan-out before any account has been admitted. -/
def NestState.init (aCount : Nat) : NestState :=
  ⟨List.range aCount, [], [], 0, 0⟩

/-- All accounts have drained. -/
def NestState.terminal (s : NestState) : Prop :=
  s.pending = [] ∧ s.running = []

instance (s : NestState) : Decidable s.terminal := by
  unfold NestState.terminal; infer_instance

/-- The number of leaf deployments in flight across all accounts. -/
def leafInFlight (s : NestState) : Nat :=
  (s.running.map (fun pr => pr.2.running.length)).sum

/-- A scheduler event of the nested fan-out. -/
inductive NestStep where
  | startAcct
  | startLeaf (a : Nat)
  | finishLeaf (a : Nat) (i : Nat)
  | finishAcct (a : Nat)
deriving DecidableEq, Repr

/-- One scheduler step.  An account is admitted only below the account cap;
a leaf starts only below its account's region cap; an account completes
only once its inner fan-out has drained. -/
def nestStep (acctCap regionCap nRegions : Nat) (s : NestState) :
    NestStep → Option NestState
  | .startAcct =>
    match s.pending with
    | [] => none
    | p :: ps =>
      if s.running.length < acctCap then
        some { s with pending := ps,
                      running := s.running ++ [(p, FanState.init Unit nRegions)],
                      issuedAcct := s.issuedAcct + 1 }
      else none
  | .startLeaf a =>
    match lookupAcct a s.running with
    | none => none
    | some st =>
      match fanStep regionCap (fun _ => ()) st .start with
      | none => none
      | some st' =>
        some { s with running := setAcct a st' s.running, issuedLeaf := s.issuedLeaf + 1 }
  | .finishLeaf a i =>
    match lookupAcct a s.running with
    | none => none
    | some st =>
      match fanStep regionCap (fun _ => ()) st (.finish i) with
      | none => none
      | some st' => some { s with running := setAcct a st' s.running }
  | .finishAcct a =>
    match lookupAcct a s.running with
    | none => none
    | some st =>
      if st.terminal then
        some { s with running := removeAcct a s.running, done := s.done ++ [a] }
      else none

/-- Run a list of nested scheduler events. -/
def nestRun (acctCap regionCap nRegions : Nat) :
    List NestStep → NestState → Option NestState
  | [], s => some s
  | e :: es, s =>
    match nestStep acctCap regionCap nRegions s e with
    | none => none
    | some s' => nestRun acctCap regionCap nRegions es s'

/-! ### Invariants of the nested scheduler -/

theorem lookupAcct_mem {l : List (Nat × FanState Unit)} {a : Nat} {st : FanState Unit}
    (h : lookupAcct a l = some st) : (a, st) ∈ l := by
  induction l with
  | nil => cases h
  | cons pr rest ih =>
    obtain ⟨b, stb⟩ := pr
    by_cases hb : b = a
    · subst hb
      simp [lookupAcct] at h
      simp [h]
    · simp [lookupAcct, hb] at h
      exact List.mem_cons_of_mem _ (ih h)

theorem length_setAcct (a : Nat) (st' : FanState Unit) (l : List (Nat × FanState Unit)) :
    (setAcct a st' l).length = l.length := by
  induction l with
  | nil => rfl
  | cons pr rest ih =>
    obtain ⟨b, stb⟩ := pr
    by_cases hb : b = a <;> simp [setAcct, hb, ih]

theorem mem_setAcct {l : List (Nat × FanState Unit)} {a : Nat} {st' : FanState Unit}
    {pr : Nat × FanState Unit} (h : pr ∈ setAcct a st' l) :
    pr = (a, st') ∨ pr ∈ l := by
  induction l with
  | nil => cases h
  | cons hd rest ih =>
    obtain ⟨b, stb⟩ := hd
    by_cases hb : b = a
    · simp [setAcct, hb] at h
      rcases h with h | h
      · exact Or.inl (by simp [h])
      · exact Or.inr (List.mem_cons_of_mem _ h)
    · simp only [setAcct, if_neg hb] at h
      rcases List.mem_cons.mp h with h | h
      · exact Or.inr (by simp [h])
      · rcases ih h with h' | h'
        · exact Or.inl h'
        · exact Or.inr (List.mem_cons_of_mem _ h')

theorem sum_setAcct (f : Nat × FanState Unit → Nat) (st' : FanState Unit)
    {l : List (Nat × FanState Unit)} {a : Nat} {st : FanState Unit}
    (h : lookupAcct a l = some st) :
    ((setAcct a st' l).map f).sum + f (a, st) = (l.map f).sum + f (a, st') := by
  induction l with
  | nil => cases h
  | cons hd rest ih =>
    obtain ⟨b, stb⟩ := hd
    by_cases hb : b = a
    · subst hb
      simp [lookupAcct] at h
      subst h
      simp [setAcct]
      omega
    · simp only [lookupAcct, if_neg hb] at h
      simp only [setAcct, if_neg hb, List.map_cons, List.sum_cons]
      have := ih h
      omega

theorem mem_removeAcct {l : List (Nat × FanState Unit)} {a : Nat}
    {pr : Nat × FanState Unit} (h : pr ∈ removeAcct a l) : pr ∈ l := by
  induction l with
  | nil => cases h
  | cons hd rest ih =>
    obtain ⟨b, stb⟩ := hd
    by_cases hb : b = a
    · simp only [removeAcct, if_pos hb] at h
      exact List.mem_cons_of_mem _ h
    · simp only [removeAcct, if_neg hb] at h
      rcases List.mem_cons.mp h with h | h
      · exact by simp [h]
      · exact List.mem_cons_of_mem _ (ih h)

theorem length_removeAcct {l : List (Nat × FanState Unit)} {a : Nat} {st : FanState Unit}
    (h : lookupAcct a l = some st) : (removeAcct a l).length + 1 = l.length := by
  induction l with
  | nil => cases h
  | cons hd rest ih =>
    obtain ⟨b, stb⟩ := hd
    by_cases hb : b = a
    · simp [removeAcct, hb]
    · simp only [lookupAcct, if_neg hb] at h
      simp only [removeAcct, if_neg hb, List.length_cons]
      rw [← ih h]

theorem sum_removeAcct (f : Nat × FanState Unit → Nat) {l : List (Nat × FanState Unit)}
    {a : Nat} {st : FanState Unit} (h : lookupAcct a l = some st) :
    ((removeAcct a l).map f).sum + f (a, st) = (l.map f).sum := by
  induction l with
  | nil => cases h
  | cons hd rest ih =>
    obtain ⟨b, stb⟩ := hd
    by_cases hb : b = a
    · subst hb
      simp [lookupAcct] at h
      subst h
      simp [removeAcct]
      omega
    · simp only [lookupAcct, if_neg hb] at h
      simp only [removeAcct, if_neg hb, List.map_cons, List.sum_cons]
      have := ih h
      omega

/-- Effect of an admitted `start` event on the inner fan-out's list lengths. -/
theorem fanStep_start_spec {cap : Nat} {v : Nat → α} {st st' : FanState α}
    (h : fanStep cap v st .start = some st') :
    st'.pending.length + 1 = st.pending.length ∧ st'.running.length = st.running.length + 1 := by
  cases hp : st.pending with
  | nil => simp [fanStep, hp] at h
  | cons p ps =>
    simp only [fanStep, hp] at h
    split at h
    · cases h; simp [hp]
    · cases h

/-- Effect of an admitted `finish` event on the inner fan-out's list lengths. -/
theorem fanStep_finish_spec {cap : Nat} {v : Nat → α} {st st' : FanState α} {i : Nat}
    (h : fanStep cap v st (.finish i) = some st') :
    st'.pending = st.pending ∧ st'.running.length + 1 = st.running.length := by
  simp only [fanStep] at h
  split at h
  · next hmem =>
    cases h
    exact ⟨rfl, List.length_erase_add_one hmem⟩
  · cases h

/-- The invariant of the nested scheduler: outer cap respected, every inner
cap respected, the account count, and the leaf-deployment count: issued
leaves plus leaves not yet admitted equal `aCount * nRegions`. -/
def NestInv (acctCap regionCap aCount nRegions : Nat) (s : NestState) : Prop :=
  s.running.length ≤ acctCap
  ∧ (∀ pr ∈ s.running, pr.2.running.length ≤ regionCap)
  ∧ s.issuedAcct + s.pending.length = aCount
  ∧ s.issuedLeaf + nRegions * s.pending.length
      + (s.running.map (fun pr => pr.2.pending.length)).sum = aCount * nRegions

theorem nestInv_init (acctCap regionCap aCount nRegions : Nat) :
    NestInv acctCap regionCap aCount nRegions (NestState.init aCount) := by
  refine ⟨by simp [NestState.init], by simp [NestState.init], by simp [NestState.init], ?_⟩
  simp [NestState.init, Nat.mul_comm]

theorem nestStep_inv {acctCap regionCap aCount nRegions : Nat} {s s' : NestState}
    {e : NestStep} (hinv : NestInv acctCap regionCap aCount nRegions s)
    (h : nestStep acctCap regionCap nRegions s e = some s') :
    NestInv acctCap regionCap aCount nRegions s' := by
  obtain ⟨hcap, hreg, hacct, hleaf⟩ := hinv
  cases e with
  | startAcct =>
    cases hp : s.pending with
    | nil => simp [nestStep, hp] at h
    | cons p ps =>
      rw [hp] at hacct hleaf
      simp only [nestStep, hp] at h
      split at h
      · next hlt =>
        cases h
        refine ⟨by simpa using hlt, ?_, ?_, ?_⟩
        · intro pr hpr
          rcases List.mem_append.mp hpr with hpr | hpr
          · exact hreg pr hpr
          · simp at hpr
            simp [hpr, FanState.init]
        · simp only [List.length_cons] at hacct
          simp only []
          omega
        · simp only [List.length_cons, Nat.mul_succ] at hleaf
          simp only [List.map_append, List.sum_append, List.map_cons, List.sum_cons]
          simp [FanState.init]
          omega
      · cases h
  | startLeaf a =>
    cases hl : lookupAcct a s.running with
    | none => simp [nestStep, hl] at h
    | some st =>
      cases hf : fanStep regionCap (fun _ => ()) st .start with
      | none => simp [nestStep, hl, hf] at h
      | some st' =>
        simp only [nestStep, hl, hf] at h
        cases h
        have hmem := lookupAcct_mem hl
        have hstCap : st.running.length ≤ regionCap := hreg (a, st) hmem
        have hst'Cap := fanStep_cap hstCap hf
        obtain ⟨hpend, _⟩ := fanStep_start_spec hf
        refine ⟨by simpa [length_setAcct] using hcap, ?_, by simpa using hacct, ?_⟩
        · intro pr hpr
          rcases mem_setAcct hpr with rfl | hpr
          · exact hst'Cap
          · exact hreg pr hpr
        · have hsum := sum_setAcct (fun pr => pr.2.pending.length) st' hl
          simp only [] at hsum ⊢
          omega
  | finishLeaf a i =>
    cases hl : lookupAcct a s.running with
    | none => simp [nestStep, hl] at h
    | some st =>
      cases hf : fanStep regionCap (fun _ => ()) st (.finish i) with
      | none => simp [nestStep, hl, hf] at h
      | some st' =>
        simp only [nestStep, hl, hf] at h
        cases h
        have hmem := lookupAcct_mem hl
        have hstCap : st.running.length ≤ regionCap := hreg (a, st) hmem
        have hst'Cap := fanStep_cap hstCap hf
        obtain ⟨hpend, _⟩ := fanStep_finish_spec hf
        refine ⟨by simpa [length_setAcct] using hcap, ?_, by simpa using hacct, ?_⟩
        · intro pr hpr
          rcases mem_setAcct hpr with rfl | hpr
          · exact hst'Cap
          · exact hreg pr hpr
        · have hsum := sum_setAcct (fun pr => pr.2.pending.length) st' hl
          simp only [] at hsum ⊢
          rw [hpend] at hsum
          omega
  | finishAcct a =>
    cases hl : lookupAcct a s.running with
    | none => simp [nestStep, hl] at h
    | some st =>
      simp only [nestStep, hl] at h
      split at h
      · next hterm =>
        cases h
        obtain ⟨hpe, _⟩ := hterm
        refine ⟨?_, ?_, by simpa using hacct, ?_⟩
        · simp only []
          have := length_removeAcct hl
          omega
        · intro pr hpr
          exact hreg pr (mem_removeAcct hpr)
        · have hsum := sum_removeAcct (fun pr => pr.2.pending.length) hl
          simp only [] at hsum ⊢
          rw [hpe] at hsum
          simp at hsum
          omega
      · cases h

theorem nestRun_inv {acctCap regionCap aCount nRegions : Nat} {tr : List NestStep}
    {s s' : NestState} (hinv : NestInv acctCap regionCap aCount nRegions s)
    (h : nestRun acctCap regionCap nRegions tr s = some s') :
    NestInv acctCap regionCap aCount nRegions s' := by
  induction tr generalizing s with
  | nil => cases h; exact hinv
  | cons e es ih =>
    simp only [nestRun] at h
    cases he : nestStep acctCap regionCap nRegions s e with
    | none => rw [he] at h; cases h
    | some s1 =>
      rw [he] at h
      exact ih (nestStep_inv hinv he) h

/-- A drained nested fan-out has issued exactly `aCount` account items and
exactly `aCount * nRegions` leaf deployments. -/
theorem nestInv_terminal {acctCap regionCap aCount nRegions : Nat} {s : NestState}
    (hinv : NestInv acctCap regionCap aCount nRegions s) (ht : s.terminal) :
    s.issuedAcct = aCount ∧ s.issuedLeaf = aCount * nRegions := by
  obtain ⟨_, _, hacct, hleaf⟩ := hinv
  obtain ⟨hp, hr⟩ := ht
  rw [hp] at hacct
  rw [hp, hr] at hleaf
  simp at hacct hleaf
  exact ⟨hacct, hleaf⟩

/-! ## The WorkflowInput document and the four-phase machine

Modelled from the spec: the document threading (`resultPath` merging) and
the strict sequencing of the chain are executor semantics; the phase
structure, the paths written, and the caps are those of the constructed
workflow above. -/

/-- One aggregated per-region bootstrap output item, as consumed by the
account-level leaf task: its `region` and `bucketDomain` fields. -/
structure RegionItem where
  region : String
  bucketDomain : String
deriving DecidableEq, Repr

/-- A value stored in a field of the WorkflowInput document. -/
inductive DocValue where
  | str (s : String)
  | strList (ss : List String)
  | accountInfo (id : String) (ou : String)
  | rawOutputs (os : List String)
  | bootstrapV (accounts : List String) (outputs : List RegionItem)
deriving DecidableEq, Repr

/-- The WorkflowInput document: named fields. -/
abbrev Doc := List (String × DocValue)

/-- Field lookup (first match). -/
def lookupDoc : Doc → String → Option DocValue
  | [], _ => none
  | (k', v) :: rest, k => if k' = k then some v else lookupDoc rest k

/-- Write a field at a `resultPath`: replace it if present, append it
otherwise (no field is ever removed). -/
def setField : Doc → String → DocValue → Doc
  | [], k, v => [(k, v)]
  | (k', v') :: rest, k, v =>
    if k' = k then (k, v) :: rest else (k', v') :: setField rest k v

theorem lookupDoc_setField_self (d : Doc) (k : String) (v : DocValue) :
    lookupDoc (setField d k v) k = some v := by
  induction d with
  | nil => simp [setField, lookupDoc]
  | cons pr rest ih =>
    obtain ⟨k', v'⟩ := pr
    by_cases hk : k' = k
    · simp [setField, hk, lookupDoc]
    · simp [setField, hk, lookupDoc, ih]

theorem lookupDoc_setField_ne (d : Doc) {k k' : String} (v : DocValue) (h : k' ≠ k) :
    lookupDoc (setField d k v) k' = lookupDoc d k' := by
  have hne : ¬k = k' := fun hh => h hh.symm
  induction d with
  | nil =>
    simp only [setField, lookupDoc]
    rw [if_neg hne]
  | cons pr rest ih =>
    obtain ⟨k0, v0⟩ := pr
    by_cases hk : k0 = k
    · subst hk
      simp only [setField, if_pos rfl, lookupDoc]
      rw [if_neg hne, if_neg hne]
    · simp only [setField, if_neg hk, lookupDoc]
      by_cases hk' : k0 = k'
      · simp [hk']
      · simp [hk', ih]

theorem lookupDoc_setField_isSome (d : Doc) (k k' : String) (v : DocValue)
    (h : (lookupDoc d k').isSome) : (lookupDoc (setField d k v) k').isSome := by
  by_cases hk : k' = k
  · subst hk; simp [lookupDoc_setField_self]
  · rwa [lookupDoc_setField_ne d v hk]

/-- The external collaborators: the `getAccountInfo` Lambda's result, the
per-region hub deployment results, the `getBootstrapOutput` Lambda (from
the raw per-region outputs, the caller's account list and the operations
account id), and which leaf account/region deployments succeed. -/
structure Collab where
  acctId : String
  acctOu : String
  hubOut : Nat → String
  agg : List String → List String → String → List String × List RegionItem
  leafOk : Nat → Nat → Bool

/-- Collect the hub fan-out's aggregated slots; defined only when every
slot is filled. -/
def collectSlots : List (Option String) → Option (List String)
  | [] => some []
  | none :: _ => none
  | some x :: rest => (collectSlots rest).map (fun l => x :: l)

/-- The control state of the four-phase chain: before phase 1, inside the
hub fan-out (phase 2), before the aggregation call (phase 3), inside the
nested account fan-out (phase 4), or completed. -/
inductive Ctl where
  | atResolve
  | atHub (fs : FanState String)
  | atAggregate
  | atAccounts (ns : NestState)
  | succeeded
deriving DecidableEq, Repr

/-- A state of the orchestration: control state plus the document. -/
structure OState where
  ctl : Ctl
  doc : Doc
deriving DecidableEq, Repr

/-- An orchestration event. -/
inductive OStep where
  | resolveDone
  | hubStep (e : FanStep)
  | hubDone
  | aggregateDone
  | nest (e : NestStep)
  | accountsDone
deriving DecidableEq, Repr

/-- One orchestration step.  `resolveDone` runs `getAccountInfoTask` and
merges at `$.operationsAccount`; hub steps drive the phase-2 fan-out over
`$.regions` with cap 20; `hubDone` writes the aggregated per-region array
at `$.bootstrap`; `aggregateDone` runs `getBootstrapOutput` and rewrites
`$.bootstrap`; `nest` steps drive the phase-4 nested fan-out (caps 10/16,
`resultPath` DISCARD, so the document is untouched); `accountsDone`
completes the chain once the nested fan-out has drained. -/
def ostep (c : Collab) (s : OState) : OStep → Option OState
  | .resolveDone =>
    match s.ctl with
    | .atResolve =>
      match lookupDoc s.doc "regions" with
      | some (.strList rs) =>
        some ⟨.atHub (FanState.init String rs.length),
          setField s.doc "operationsAccount" (.accountInfo c.acctId c.acctOu)⟩
      | _ => none
    | _ => none
  | .hubStep e =>
    match s.ctl with
    | .atHub fs =>
      match fanStep 20 c.hubOut fs e with
      | none => none
      | some fs' => some ⟨.atHub fs', s.doc⟩
    | _ => none
  | .hubDone =>
    match s.ctl with
    | .atHub fs =>
      if fs.terminal then
        match collectSlots fs.slots with
        | some outs => some ⟨.atAggregate, setField s.doc "bootstrap" (.rawOutputs outs)⟩
        | none => none
      else none
    | _ => none
  | .aggregateDone =>
    match s.ctl with
    | .atAggregate =>
      match lookupDoc s.doc "bootstrap", lookupDoc s.doc "accounts" with
      | some (.rawOutputs raw), some (.strList accts) =>
        let r := c.agg raw accts c.acctId
        some ⟨.atAccounts (NestState.init r.1.length),
          setField s.doc "bootstrap" (.bootstrapV r.1 r.2)⟩
      | _, _ => none
    | _ => none
  | .nest e =>
    match s.ctl with
    | .atAccounts ns =>
      match lookupDoc s.doc "bootstrap" with
      | some (.bootstrapV _ outs) =>
        match nestStep 10 16 outs.length ns e with
        | none => none
        | some ns' => some ⟨.atAccounts ns', s.doc⟩
      | _ => none
    | _ => none
  | .accountsDone =>
    match s.ctl with
    | .atAccounts ns => if ns.terminal then some ⟨.succeeded, s.doc⟩ else none
    | _ => none

/-- Run a list of orchestration events. -/
def orun (c : Collab) : List OStep → OState → Option OState
  | [], s => some s
  | e :: es, s =>
    match ostep c s e with
    | none => none
    | some s' => orun c es s'

theorem orun_append (c : Collab) (t1 t2 : List OStep) (s : OState) :
    orun c (t1 ++ t2) s = (orun c t1 s).bind (orun c t2) := by
  induction t1 generalizing s with
  | nil => simp [orun]
  | cons e es ih =>
    simp only [List.cons_append, orun]
    cases ostep c s e with
    | none => simp
    | some s1 => simp [ih]

/-! ### Document evolution across steps -/

/-- Every step either leaves the document unchanged, or writes
`operationsAccount` (only from the initial control state), or writes
`bootstrap`. -/
theorem ostep_doc_shape {c : Collab} {s s' : OState} {e : OStep}
    (h : ostep c s e = some s') :
    s'.doc = s.doc
    ∨ (s.ctl = .atResolve ∧ ∃ val, s'.doc = setField s.doc "operationsAccount" val)
    ∨ (∃ val, s'.doc = setField s.doc "bootstrap" val) := by
  obtain ⟨ctl, doc⟩ := s
  cases e with
  | resolveDone =>
    cases ctl <;> simp only [ostep] at h
    case atResolve =>
      split at h <;> cases h
      exact Or.inr (Or.inl ⟨rfl, _, rfl⟩)
    all_goals cases h
  | hubStep e =>
    cases ctl <;> simp only [ostep] at h
    case atHub fs =>
      split at h <;> cases h
      exact Or.inl rfl
    all_goals cases h
  | hubDone =>
    cases ctl <;> simp only [ostep] at h
    case atHub fs =>
      split at h
      · split at h <;> cases h
        exact Or.inr (Or.inr ⟨_, rfl⟩)
      · cases h
    all_goals cases h
  | aggregateDone =>
    cases ctl <;> simp only [ostep] at h
    case atAggregate =>
      split at h <;> cases h
      exact Or.inr (Or.inr ⟨_, rfl⟩)
    all_goals cases h
  | nest e =>
    cases ctl <;> simp only [ostep] at h
    case atAccounts ns =>
      split at h
      · split at h <;> cases h
        exact Or.inl rfl
      all_goals cases h
    all_goals cases h
  | accountsDone =>
    cases ctl <;> simp only [ostep] at h
    case atAccounts ns =>
      split at h <;> cases h
      exact Or.inl rfl
    all_goals cases h

/-- A `nest` event (an item of phase 4) is enabled only inside the
account fan-out control state. -/
theorem ostep_nest_ctl {c : Collab} {s s' : OState} {e : NestStep}
    (h : ostep c s (.nest e) = some s') : ∃ ns, s.ctl = .atAccounts ns := by
  obtain ⟨ctl, doc⟩ := s
  cases ctl <;> simp only [ostep] at h
  case atAccounts ns => exact ⟨ns, rfl⟩
  all_goals cases h

/-- The chain completes only from the account fan-out state and only once
the nested fan-out has fully drained. -/
theorem ostep_accountsDone_guard {c : Collab} {s s' : OState}
    (h : ostep c s .accountsDone = some s') :
    ∃ ns, s.ctl = .atAccounts ns ∧ ns.terminal ∧ s'.ctl = .succeeded ∧ s'.doc = s.doc := by
  obtain ⟨ctl, doc⟩ := s
  cases ctl <;> simp only [ostep] at h
  case atAccounts ns =>
    split at h <;> cases h
    next ht => exact ⟨ns, rfl, ht, rfl, rfl⟩
  all_goals cases h

/-- The hub phase hands over to the aggregation phase only once its fan-out
has fully drained. -/
theorem ostep_hubDone_guard {c : Collab} {s s' : OState}
    (h : ostep c s .hubDone = some s') :
    ∃ fs, s.ctl = .atHub fs ∧ fs.terminal := by
  obtain ⟨ctl, doc⟩ := s
  cases ctl <;> simp only [ostep] at h
  case atHub fs =>
    split at h
    next ht =>
      split at h <;> cases h
      exact ⟨fs, rfl, ht⟩
    next => cases h
  all_goals cases h

/-- While inside phase 4 (`atAccounts`), no step writes the document: both
phase-4 Maps and the leaf task have `resultPath: DISCARD`. -/
theorem ostep_atAccounts_doc {c : Collab} {s s' : OState} {e : OStep} {ns : NestState}
    (hc : s.ctl = .atAccounts ns) (h : ostep c s e = some s') : s'.doc = s.doc := by
  obtain ⟨ctl, doc⟩ := s
  simp only [] at hc
  subst hc
  cases e <;> simp only [ostep] at h
  case nest e =>
    split at h
    · split at h <;> cases h
      rfl
    all_goals cases h
  case accountsDone =>
    split at h <;> cases h
    rfl
  all_goals cases h

/-! ### Phase ordering -/

/-- Control states belonging to phases 1-3, before any phase-4 item can
exist. -/
def preAggregate : Ctl → Prop
  | .atResolve => True
  | .atHub _ => True
  | .atAggregate => True
  | .atAccounts _ => False
  | .succeeded => False

/-- Without the `aggregateDone` event, a step never leaves phases 1-3. -/
theorem ostep_preAggregate {c : Collab} {s s' : OState} {e : OStep}
    (hp : preAggregate s.ctl) (hne : e ≠ .aggregateDone)
    (h : ostep c s e = some s') : preAggregate s'.ctl := by
  obtain ⟨ctl, doc⟩ := s
  cases e with
  | resolveDone =>
    cases ctl <;> simp only [ostep] at h
    case atResolve =>
      split at h <;> cases h
      trivial
    all_goals cases h
  | hubStep e =>
    cases ctl <;> simp only [ostep] at h
    case atHub fs =>
      split at h <;> cases h
      trivial
    all_goals cases h
  | hubDone =>
    cases ctl <;> simp only [ostep] at h
    case atHub fs =>
      split at h
      · split at h <;> cases h
        trivial
      · cases h
    all_goals cases h
  | aggregateDone => exact absurd rfl hne
  | nest e =>
    obtain ⟨ns, hc⟩ := ostep_nest_ctl h
    simp only [] at hc
    subst hc
    exact absurd hp (by simp [preAggregate])
  | accountsDone =>
    obtain ⟨ns, hc, _⟩ := ostep_accountsDone_guard h
    simp only [] at hc
    subst hc
    exact absurd hp (by simp [preAggregate])

theorem orun_preAggregate {c : Collab} {tr : List OStep} {s s' : OState}
    (hp : preAggregate s.ctl) (hne : OStep.aggregateDone ∉ tr)
    (h : orun c tr s = some s') : preAggregate s'.ctl := by
  induction tr generalizing s with
  | nil => cases h; exact hp
  | cons e es ih =>
    simp only [orun] at h
    cases he : ostep c s e with
    | none => rw [he] at h; cases h
    | some s1 =>
      rw [he] at h
      have hne1 : e ≠ .aggregateDone := fun hh => hne (by simp [hh])
      exact ih (ostep_preAggregate hp hne1 he) (fun hh => hne (List.mem_cons_of_mem _ hh)) h

/-! ### What phase 4 reads -/

/-- Whenever the machine is inside the account fan-out, the document holds
the aggregated `bootstrap = {accounts, outputs}` field, and the fan-out's
items are exactly the `accounts` list (with the inner fan-outs over the
`outputs` list), with both caps and counts governed by `NestInv`. -/
def OInv (s : OState) : Prop :=
  ∀ ns, s.ctl = .atAccounts ns → ∃ accts outs,
    lookupDoc s.doc "bootstrap" = some (.bootstrapV accts outs)
    ∧ NestInv 10 16 accts.length outs.length ns

theorem ostep_OInv {c : Collab} {s s' : OState} {e : OStep}
    (hi : OInv s) (h : ostep c s e = some s') : OInv s' := by
  obtain ⟨ctl, doc⟩ := s
  cases e with
  | resolveDone =>
    cases ctl <;> simp only [ostep] at h
    case atResolve =>
      split at h <;> cases h
      intro ns hns
      cases hns
    all_goals cases h
  | hubStep e =>
    cases ctl <;> simp only [ostep] at h
    case atHub fs =>
      split at h <;> cases h
      intro ns hns
      cases hns
    all_goals cases h
  | hubDone =>
    cases ctl <;> simp only [ostep] at h
    case atHub fs =>
      split at h
      · split at h <;> cases h
        intro ns hns
        cases hns
      · cases h
    all_goals cases h
  | aggregateDone =>
    cases ctl <;> simp only [ostep] at h
    case atAggregate =>
      split at h <;> cases h
      next raw accts _ _ =>
        intro ns hns
        cases hns
        refine ⟨(c.agg raw accts c.acctId).1, (c.agg raw accts c.acctId).2, ?_, ?_⟩
        · exact lookupDoc_setField_self ..
        · exact nestInv_init ..
    all_goals cases h
  | nest e =>
    cases ctl <;> simp only [ostep] at h
    case atAccounts ns0 =>
      split at h
      next a o hl =>
        split at h <;> cases h
        next ns' hstep =>
          intro ns hns
          cases hns
          obtain ⟨accts, outs, hlook, hninv⟩ := hi ns0 rfl
          simp only [] at hlook
          rw [hl] at hlook
          cases hlook
          exact ⟨a, o, hl, nestStep_inv hninv hstep⟩
      all_goals cases h
    all_goals cases h
  | accountsDone =>
    cases ctl <;> simp only [ostep] at h
    case atAccounts ns0 =>
      split at h <;> cases h
      intro ns hns
      cases hns
    all_goals cases h

theorem orun_OInv {c : Collab} {tr : List OStep} {s s' : OState}
    (hi : OInv s) (h : orun c tr s = some s') : OInv s' := by
  induction tr generalizing s with
  | nil => cases h; exact hi
  | cons e es ih =>
    simp only [orun] at h
    cases he : ostep c s e with
    | none => rw [he] at h; cases h
    | some s1 =>
      rw [he] at h
      exact ih (ostep_OInv hi he) h

/-! ## Big-step failure semantics of the chain

Modelled from the spec: a Map phase fails as soon as any item fails, and
without catch handlers a phase failure aborts the chain (`.next` never runs
after an error). -/

/-- Outcome of phase 2: fails unless the hub deployment succeeds in every
region index. -/
def runHubPhase (R : Nat) (hubOk : Nat → Bool) : Except String Unit :=
  if (List.range R).all hubOk then .ok () else .error "DeploymentError: hub stack"

/-- Outcome of phase 4: fails unless the leaf deployment succeeds for every
account index and region index. -/
def runAccountsPhase (A N : Nat) (leafOk : Nat → Nat → Bool) : Except String Unit :=
  if (List.range A).all (fun a => (List.range N).all (fun i => leafOk a i)) then .ok ()
  else .error "DeploymentError: account stack"

/-- Big-step outcome of the whole chain: phases run in sequence and the
first error aborts the rest (no catch handler exists anywhere). -/
def bigRun (hubOk : Nat → Bool) (leafOk : Nat → Nat → Bool) (R A N : Nat) :
    Except String Unit :=
  match runHubPhase R hubOk with
  | .error msg => .error msg
  | .ok _ =>
    match runAccountsPhase A N leafOk with
    | .error msg => .error msg
    | .ok _ => .ok ()

/-! ## Concrete sample data for closed witnesses -/

/-- A concrete property set. -/
def sampleProps : Props where
  role := "pipelineRole"
  lambdaCode := "lambdaBundle"
  acceleratorPrefix := "PBMMAccel-"
  s3BucketName := "config-bucket"
  operationsBootstrapObjectKey := "ops-template.yml"
  accountBootstrapObjectKey := "acct-template.yml"
  assumeRoleName := "OrganizationAccountAccessRole"
  bootStrapStackName := "CDKBootstrapStack"

/-- A concrete caller document: one region, one account. -/
def sampleDoc : Doc :=
  [("regions", .strList ["us-east-1"]), ("accounts", .strList ["111"])]

/-- Concrete external collaborators. -/
def sampleCollab : Collab where
  acctId := "999"
  acctOu := "core"
  hubOut := fun _ => "hub-out"
  agg := fun _ _ _ => (["111"], [{ region := "us-east-1", bucketDomain := "bucket.domain" }])
  leafOk := fun _ _ => true

/-! ## The claims -/

/-- C1: the orchestration is a strict linear chain of exactly four phases
in the fixed order ResolveHubAccount (`getAccountInfoTask`),
BootstrapHubRegions (Map over regions), AggregateBootstrapOutput
(`getBootstrapOutput`), BootstrapEachAccount (Map over
`bootstrap.accounts`): for every input `Props` the constructed chain is
exactly this four-element list (a `List Phase` — no branching and no loops
between phases), so no other top-level phase exists. -/
theorem claim1_four_phase_linear_chain (p : Props) :
    (cdkBootstrapTask p).chain =
      [ Phase.code getAccountInfoTask
      , Phase.mapP (createRootBootstrapInRegion p) (.exec (bootstrapOpsTask p))
      , Phase.code getBootstrapOutput
      , Phase.mapP (createBootstrapInAccount p)
          (.mapB (createBootstrapInRegion p) (.exec (bootstrapTask p))) ]
    ∧ (cdkBootstrapTask p).chain.map Phase.name =
      [ "Get Operations Account Info", "Bootstrap Operations Account"
      , "Get Bootstrap output", "Bootstrap Account Map" ]
    ∧ (cdkBootstrapTask p).chain.length = 4 :=
  ⟨rfl, rfl, rfl⟩

/-- C9: the optional `waitSeconds` (defaulted to 10) and `functionPayload`
props have no effect on the constructed workflow: any two property sets
differing only in those two fields construct identical workflows. -/
theorem claim9_waitSeconds_functionPayload_noninterference
    (p : Props) (fp : Option (List (String × String))) (w : Option Nat) :
    cdkBootstrapTask { p with functionPayload := fp, waitSeconds := w } = cdkBootstrapTask p
    ∧ effectiveWaitSeconds { p with waitSeconds := none } = 10 :=
  ⟨rfl, rfl⟩

/-- C10: the leaf account-stack deployment sets both stack parameters
`BucketName` and `BucketDomainName` to the same JSON path
`$.bootstrapRegion.bucketDomain`, and takes its target region from
`$.bootstrapRegion.region`. -/
theorem claim10_leaf_stack_parameters (p : Props) :
    lookupT (bootstrapTask p).input "stackParameters"
      = some (.node
          [ ("BucketName.$", .path "$.bootstrapRegion.bucketDomain")
          , ("BucketDomainName.$", .path "$.bootstrapRegion.bucketDomain") ])
    ∧ lookupT (bootstrapTask p).input "region.$" = some (.path "$.bootstrapRegion.region") :=
  ⟨rfl, rfl⟩

/-- C3: with `regions` of length R, phase BootstrapHubRegions (the Map
over `$.regions`) admits at most 20 concurrent items in every reachable
scheduler state, and it reaches its terminal state only once all R
synchronous sub-workflow invocations have been issued and have completed;
the hub task runs with the SYNC integration pattern. -/
theorem claim3_hub_fanout_counts {α : Type} (p : Props) (regions : List String)
    (v : Nat → α) (tr : List FanStep) (s : FanState α)
    (h : fanRun (createRootBootstrapInRegion p).maxConcurrency v tr
        (FanState.init α regions.length) = some s) :
    s.running.length ≤ 20
    ∧ (s.terminal → s.issued = regions.length ∧ s.done.length = regions.length)
    ∧ (createRootBootstrapInRegion p).itemsPath = "$.regions"
    ∧ (bootstrapOpsTask p).integrationPattern = .sync
    ∧ (∀ (c : Collab) (s1 s1' : OState), ostep c s1 .hubDone = some s1' →
        ∃ fs, s1.ctl = .atHub fs ∧ fs.terminal) := by
  have hcap : (createRootBootstrapInRegion p).maxConcurrency = 20 := rfl
  rw [hcap] at h
  have hinv := fanRun_inv (fanInv_init regions.length v) h
  refine ⟨fanRun_cap (by simp [FanState.init]) h, ?_, rfl, rfl,
    fun _c _s1 _s1' hh => ostep_hubDone_guard hh⟩
  intro ht
  obtain ⟨h1, h2, _⟩ := fanInv_terminal hinv ht
  exact ⟨h1, h2⟩

/-- Witness state for C3: both regions deployed, in order. -/
def w3state : FanState Nat := ⟨[], [], [0, 1], 2, [some 0, some 1]⟩

/-- C3 witness: the two-region scenario, run to completion. -/
theorem claim3_hub_fanout_counts_witness :
    w3state.running.length ≤ 20
    ∧ (w3state.terminal →
        w3state.issued = (["us-east-1", "us-west-2"] : List String).length
        ∧ w3state.done.length = (["us-east-1", "us-west-2"] : List String).length)
    ∧ (createRootBootstrapInRegion sampleProps).itemsPath = "$.regions"
    ∧ (bootstrapOpsTask sampleProps).integrationPattern = .sync
    ∧ (∀ (c : Collab) (s1 s1' : OState), ostep c s1 .hubDone = some s1' →
        ∃ fs, s1.ctl = .atHub fs ∧ fs.terminal) :=
  claim3_hub_fanout_counts sampleProps ["us-east-1", "us-west-2"] (fun i => i)
    [.start, .start, .finish 0, .finish 1] w3state (by decide)

/-- C8: for the aggregating hub fan-out (`resultPath: $.bootstrap`), every
completed schedule — whatever order the concurrent per-region invocations
finish in — yields the aggregated output sequence in the original item
order `v 0, v 1, …`, not in completion order. -/
theorem claim8_hub_aggregate_preserves_item_order {α : Type} (p : Props) (n : Nat)
    (v : Nat → α) (tr : List FanStep) (s : FanState α)
    (h : fanRun (createRootBootstrapInRegion p).maxConcurrency v tr
        (FanState.init α n) = some s) (ht : s.terminal) :
    s.aggregateOut = (List.range n).map (fun i => some (v i))
    ∧ (createRootBootstrapInRegion p).resultPath = .atPath "$.bootstrap" := by
  have hcap : (createRootBootstrapInRegion p).maxConcurrency = 20 := rfl
  rw [hcap] at h
  have hinv := fanRun_inv (fanInv_init n v) h
  obtain ⟨_, _, h3⟩ := fanInv_terminal hinv ht
  exact ⟨h3, rfl⟩

/-- Witness state for C8: item 1 completed before item 0, yet the slots
are in item order. -/
def w8state : FanState Nat := ⟨[], [], [1, 0], 2, [some 0, some 1]⟩

/-- C8 witness: two items finishing out of order still aggregate in input
order. -/
theorem claim8_hub_aggregate_preserves_item_order_witness :
    w8state.aggregateOut = (List.range 2).map (fun i => some i)
    ∧ (createRootBootstrapInRegion sampleProps).resultPath = .atPath "$.bootstrap" :=
  claim8_hub_aggregate_preserves_item_order sampleProps 2 (fun i => i)
    [.start, .start, .finish 1, .finish 0] w8state (by decide) (by decide)

/-- C2: with `bootstrap.accounts` of length A and `bootstrap.outputs` of
length N, phase BootstrapEachAccount (the Map over `$.bootstrap.accounts`,
whose item parameter `bootstrapRegions` is `$.bootstrap.outputs`) issues
exactly A×N leaf deployments in any completed schedule; every reachable
scheduler state holds at most 10 account items and, per account, at most
16 region items in flight — and the two caps are independent, not a global
cap: a state is reachable in which the total number of in-flight leaf
deployments exceeds the region cap of 16. -/
theorem claim2_each_account_fanout_counts (p : Props) (A N : Nat)
    (tr : List NestStep) (s : NestState)
    (h : nestRun (createBootstrapInAccount p).maxConcurrency
        (createBootstrapInRegion p).maxConcurrency N tr (NestState.init A) = some s) :
    (s.terminal → s.issuedLeaf = A * N)
    ∧ s.running.length ≤ (createBootstrapInAccount p).maxConcurrency
    ∧ (∀ pr ∈ s.running, pr.2.running.length ≤ (createBootstrapInRegion p).maxConcurrency)
    ∧ (createBootstrapInAccount p).itemsPath = "$.bootstrap.accounts"
    ∧ lookupT (createBootstrapInAccount p).parameters "bootstrapRegions.$"
        = some (.path "$.bootstrap.outputs")
    ∧ ∃ tr2 s2, nestRun (createBootstrapInAccount p).maxConcurrency
          (createBootstrapInRegion p).maxConcurrency 9 tr2 (NestState.init 2) = some s2
        ∧ (createBootstrapInRegion p).maxConcurrency < leafInFlight s2 := by
  have h10 : (createBootstrapInAccount p).maxConcurrency = 10 := rfl
  have h16 : (createBootstrapInRegion p).maxConcurrency = 16 := rfl
  rw [h10, h16] at h
  have hinv := nestRun_inv (nestInv_init 10 16 A N) h
  refine ⟨?_, by rw [h10]; exact hinv.1, ?_, rfl, rfl, ?_⟩
  · intro ht
    exact (nestInv_terminal hinv ht).2
  · intro pr hpr
    rw [h16]
    exact hinv.2.1 pr hpr
  · have key : (nestRun 10 16 9
        ([.startAcct, .startAcct] ++ List.replicate 9 (.startLeaf 0)
          ++ List.replicate 9 (.startLeaf 1)) (NestState.init 2)).map leafInFlight
        = some 18 := by decide
    obtain ⟨s2, hs2, hl⟩ := Option.map_eq_some'.mp key
    refine ⟨[.startAcct, .startAcct] ++ List.replicate 9 (.startLeaf 0)
      ++ List.replicate 9 (.startLeaf 1), s2, ?_, ?_⟩
    · rw [h10, h16]
      exact hs2
    · rw [h16, hl]
      decide

/-- Witness state for C2: one account, one region, fully drained. -/
def w2state : NestState := ⟨[], [], [0], 1, 1⟩

/-- C2 witness: the A = N = 1 scenario, run to completion. -/
theorem claim2_each_account_fanout_counts_witness :
    (w2state.terminal → w2state.issuedLeaf = 1 * 1)
    ∧ w2state.running.length ≤ (createBootstrapInAccount sampleProps).maxConcurrency
    ∧ (∀ pr ∈ w2state.running,
        pr.2.running.length ≤ (createBootstrapInRegion sampleProps).maxConcurrency)
    ∧ (createBootstrapInAccount sampleProps).itemsPath = "$.bootstrap.accounts"
    ∧ lookupT (createBootstrapInAccount sampleProps).parameters "bootstrapRegions.$"
        = some (.path "$.bootstrap.outputs")
    ∧ ∃ tr2 s2, nestRun (createBootstrapInAccount sampleProps).maxConcurrency
          (createBootstrapInRegion sampleProps).maxConcurrency 9 tr2 (NestState.init 2) = some s2
        ∧ (createBootstrapInRegion sampleProps).maxConcurrency < leafInFlight s2 :=
  claim2_each_account_fanout_counts sampleProps 1 1
    [.startAcct, .startLeaf 0, .finishLeaf 0 0, .finishAcct 0] w2state (by decide)

/-- C4: if any single leaf deployment of phase BootstrapEachRegionInAccount
fails — even with every other leaf deployment, and the whole hub phase,
succeeding — the chain's outcome is the deployment error: no state of the
constructed workflow carries a catch handler, so the child failure
propagates to abnormal termination. -/
theorem claim4_leaf_failure_fails_orchestration (p : Props) (R A N a i : Nat)
    (hubOk : Nat → Bool) (leafOk : Nat → Nat → Bool)
    (ha : a < A) (hi : i < N) (hfail : leafOk a i = false)
    (_hothers : ∀ b j, b < A → j < N → (b, j) ≠ (a, i) → leafOk b j = true)
    (hhub : ∀ r, r < R → hubOk r = true) :
    bigRun hubOk leafOk R A N = .error "DeploymentError: account stack"
    ∧ allCatchRules (cdkBootstrapTask p) = [] := by
  have hhubAll : (List.range R).all hubOk = true :=
    List.all_eq_true.mpr (fun r hr => hhub r (List.mem_range.mp hr))
  have hacc : ((List.range A).all (fun b => (List.range N).all (fun j => leafOk b j))) = false := by
    cases hcase : (List.range A).all (fun b => (List.range N).all (fun j => leafOk b j)) with
    | false => rfl
    | true =>
      exfalso
      have h1 := List.all_eq_true.mp hcase a (List.mem_range.mpr ha)
      have h2 := List.all_eq_true.mp h1 i (List.mem_range.mpr hi)
      rw [hfail] at h2
      cases h2
  refine ⟨?_, rfl⟩
  simp [bigRun, runHubPhase, runAccountsPhase, hhubAll, hacc]

/-- C4 witness: a single account/region whose one leaf deployment fails. -/
theorem claim4_leaf_failure_fails_orchestration_witness :
    bigRun (fun _ => true) (fun _ _ => false) 1 1 1 = .error "DeploymentError: account stack"
    ∧ allCatchRules (cdkBootstrapTask sampleProps) = [] :=
  claim4_leaf_failure_fails_orchestration sampleProps 1 1 1 0 0
    (fun _ => true) (fun _ _ => false) (by decide) (by decide) rfl
    (by
      intro b j hb hj hne
      exfalso
      apply hne
      have hb0 : b = 0 := by omega
      have hj0 : j = 0 := by omega
      rw [hb0, hj0])
    (fun _ _ => rfl)

/-- C5 counterexample: the claim that no later phase ever overwrites an
existing field fails at a concrete input — after BootstrapHubRegions the
`bootstrap` field holds the raw per-region array, and AggregateBootstrapOutput
then overwrites that same field with a different value. -/
theorem claim5_bootstrap_overwritten_counterexample :
    ((orun sampleCollab [.resolveDone, .hubStep .start, .hubStep (.finish 0), .hubDone]
        ⟨.atResolve, sampleDoc⟩).map (fun s => lookupDoc s.doc "bootstrap"))
      = some (some (.rawOutputs ["hub-out"]))
    ∧ ((orun sampleCollab [.resolveDone, .hubStep .start, .hubStep (.finish 0), .hubDone,
          .aggregateDone] ⟨.atResolve, sampleDoc⟩).map (fun s => lookupDoc s.doc "bootstrap"))
      = some (some (.bootstrapV ["111"] [⟨"us-east-1", "bucket.domain"⟩]))
    ∧ DocValue.rawOutputs ["hub-out"]
        ≠ DocValue.bootstrapV ["111"] [⟨"us-east-1", "bucket.domain"⟩] :=
  ⟨by decide, by decide, by decide⟩

/-- C5 (amended): the document is never shrunk — every step preserves every
present field's existence — and every field other than `operationsAccount`
(written once, by ResolveHubAccount from the initial state) and `bootstrap`
is never written at all; after phase 1 the only field any step rewrites is
`bootstrap` (written by BootstrapHubRegions and overwritten by
AggregateBootstrapOutput), so the document is append-only except for that
one overwrite. -/
theorem claim5_append_only_except_bootstrap (c : Collab) (s s' : OState) (e : OStep)
    (h : ostep c s e = some s') :
    (∀ k, (lookupDoc s.doc k).isSome → (lookupDoc s'.doc k).isSome)
    ∧ (∀ k, k ≠ "operationsAccount" → k ≠ "bootstrap" →
        lookupDoc s'.doc k = lookupDoc s.doc k)
    ∧ (s.ctl ≠ .atResolve → ∀ k, k ≠ "bootstrap" →
        lookupDoc s'.doc k = lookupDoc s.doc k) := by
  rcases ostep_doc_shape h with hd | ⟨hctl, val, hd⟩ | ⟨val, hd⟩
  · rw [hd]
    exact ⟨fun k hk => hk, fun k _ _ => rfl, fun _ k _ => rfl⟩
  · rw [hd]
    exact ⟨fun k hk => lookupDoc_setField_isSome _ _ _ _ hk,
      fun k hk _ => lookupDoc_setField_ne _ _ hk,
      fun hctl' => absurd hctl hctl'⟩
  · rw [hd]
    exact ⟨fun k hk => lookupDoc_setField_isSome _ _ _ _ hk,
      fun k _ hk => lookupDoc_setField_ne _ _ hk,
      fun _ k hk => lookupDoc_setField_ne _ _ hk⟩

/-- The state reached after `resolveDone` on the sample input. -/
def w5state : OState :=
  ⟨.atHub ⟨[0], [], [], 0, [none]⟩,
    [ ("regions", .strList ["us-east-1"]), ("accounts", .strList ["111"])
    , ("operationsAccount", .accountInfo "999" "core") ]⟩

/-- C5 witness: the amended frame property at the concrete `resolveDone`
step. -/
theorem claim5_append_only_except_bootstrap_witness :
    (∀ k, (lookupDoc (OState.mk .atResolve sampleDoc).doc k).isSome →
        (lookupDoc w5state.doc k).isSome)
    ∧ (∀ k, k ≠ "operationsAccount" → k ≠ "bootstrap" →
        lookupDoc w5state.doc k = lookupDoc (OState.mk .atResolve sampleDoc).doc k)
    ∧ ((OState.mk .atResolve sampleDoc).ctl ≠ .atResolve → ∀ k, k ≠ "bootstrap" →
        lookupDoc w5state.doc k = lookupDoc (OState.mk .atResolve sampleDoc).doc k) :=
  claim5_append_only_except_bootstrap sampleCollab ⟨.atResolve, sampleDoc⟩ w5state
    .resolveDone (by decide)

/-- C6: phase barrier — in every run from the initial state, no item of
phase BootstrapEachAccount begins before `aggregateDone` has completed:
any trace that performs a phase-4 item event contains `aggregateDone`
strictly before it, and at that point the document holds the aggregated
`bootstrap = {accounts, outputs}` fields over which the phase-4 maps
iterate (the fan-out's items are exactly the `accounts` list). -/
theorem claim6_phase_barrier (c : Collab) (d : Doc) (t1 t2 : List OStep)
    (e : NestStep) (s : OState)
    (h : orun c (t1 ++ OStep.nest e :: t2) ⟨.atResolve, d⟩ = some s) :
    OStep.aggregateDone ∈ t1
    ∧ ∃ s1 ns accts outs,
        orun c t1 ⟨.atResolve, d⟩ = some s1
        ∧ s1.ctl = .atAccounts ns
        ∧ lookupDoc s1.doc "bootstrap" = some (.bootstrapV accts outs)
        ∧ ns.issuedAcct + ns.pending.length = accts.length := by
  rw [orun_append] at h
  cases hs1 : orun c t1 ⟨.atResolve, d⟩ with
  | none => rw [hs1] at h; cases h
  | some s1 =>
    rw [hs1] at h
    simp only [Option.some_bind] at h
    simp only [orun] at h
    cases hstep : ostep c s1 (.nest e) with
    | none => rw [hstep] at h; cases h
    | some s2 =>
      obtain ⟨ns, hctl⟩ := ostep_nest_ctl hstep
      have hOInv : OInv s1 := orun_OInv (fun ns0 hns0 => by cases hns0) hs1
      obtain ⟨accts, outs, hlook, hninv⟩ := hOInv ns hctl
      refine ⟨?_, s1, ns, accts, outs, rfl, hctl, hlook, hninv.2.2.1⟩
      by_contra hmem
      have hpre := orun_preAggregate (by trivial) hmem hs1
      rw [hctl] at hpre
      exact hpre

/-- C6 witness: the sample one-region, one-account run, up to admitting the
first phase-4 account item. -/
theorem claim6_phase_barrier_witness :
    OStep.aggregateDone ∈ ([.resolveDone, .hubStep .start, .hubStep (.finish 0),
        .hubDone, .aggregateDone] : List OStep)
    ∧ ∃ s1 ns accts outs,
        orun sampleCollab [.resolveDone, .hubStep .start, .hubStep (.finish 0),
          .hubDone, .aggregateDone] ⟨.atResolve, sampleDoc⟩ = some s1
        ∧ s1.ctl = .atAccounts ns
        ∧ lookupDoc s1.doc "bootstrap" = some (.bootstrapV accts outs)
        ∧ ns.issuedAcct + ns.pending.length = accts.length :=
  claim6_phase_barrier sampleCollab sampleDoc
    [.resolveDone, .hubStep .start, .hubStep (.finish 0), .hubDone, .aggregateDone]
    [] .startAcct
    ⟨.atAccounts ⟨[], [(0, ⟨[0], [], [], 0, [none]⟩)], [], 1, 0⟩,
      [ ("regions", .strList ["us-east-1"]), ("accounts", .strList ["111"])
      , ("operationsAccount", .accountInfo "999" "core")
      , ("bootstrap", .bootstrapV ["111"] [⟨"us-east-1", "bucket.domain"⟩]) ]⟩
    (by decide)

/-- C7: phases BootstrapEachAccount and BootstrapEachRegionInAccount and
their leaf deployment task all have `resultPath: DISCARD`; accordingly no
step taken inside phase 4 changes the document (no per-item output is
recorded), while the chain still completes only once every item of the
nested fan-out has reached its terminal state. -/
theorem claim7_phase4_discards_outputs (p : Props) :
    (createBootstrapInAccount p).resultPath = .discard
    ∧ (createBootstrapInRegion p).resultPath = .discard
    ∧ (bootstrapTask p).resultPath = .discard
    ∧ (∀ (c : Collab) (s s' : OState) (e : OStep) (ns : NestState),
        s.ctl = .atAccounts ns → ostep c s e = some s' → s'.doc = s.doc)
    ∧ (∀ (c : Collab) (s s' : OState), ostep c s .accountsDone = some s' →
        ∃ ns, s.ctl = .atAccounts ns ∧ ns.terminal ∧ s'.ctl = .succeeded) :=
  ⟨rfl, rfl, rfl,
    fun _c _s _s' _e _ns hc h => ostep_atAccounts_doc hc h,
    fun _c _s _s' h =>
      let ⟨ns, h1, h2, h3, _⟩ := ostep_accountsDone_guard h
      ⟨ns, h1, h2, h3⟩⟩
